import Mathlib

/-!
Shallow embedding of `pkg/pool/pool.go` from kokizzu/integresql.

The Go code manages, per template hash, a `dbHashPool` holding a slice of
test databases (`dbs`) and two id sets (`ready`, `dirty`, both Go maps
`map[int]bool` used as sets).  A `DBPool` maps hashes to hash pools and
carries `maxPoolSize`.

Modelling decisions:
  * Go `map[int]bool` used as an id set becomes `Finset ℕ`.  Every key ever
    inserted by the code is non-negative (`AddTestDatabase` inserts
    `len(pool.dbs)`; `ReturnTestDatabase` inserts `id` only after checking
    `id >= 0`), so `ℕ` keys are faithful.
  * Go map iteration order is unspecified; `popFirstKey` takes "the first
    key" of the map.  We model the choice by an explicit parameter
    `pick : Finset ℕ → ℕ`; `PickValid pick` says that on a non-empty set
    the chosen key is a member, which is exactly what Go's `range` yields.
  * The registry `p.pools map[string]*dbHashPool` becomes a function
    `String → Option dbHashPool`; `RemoveAll` ranges over the map, so it
    takes the iteration order as an explicit hash list.
  * Go functions returning `error` become `Except`; the sentinel errors of
    pool.go are the constructors of `PoolError`, and errors propagated
    verbatim from `initFunc` / `removeFunc` are wrapped in `ErrExternal`.
  * In-place mutation through the shared `*dbHashPool` pointer becomes
    explicit state passing: each operation returns its result together with
    the updated `DBPool`.  Mutations that Go performs before a later error
    return (e.g. `popFirstKey` before the index sanity checks in `GetDB`,
    or registering a fresh hash pool before the capacity check in
    `AddTestDatabase`) are kept in the returned state, as in the source.
  * `removeAllFromPool`'s loop `for id := len(dbs)-1; id >= 0; id--`
    truncates `dbs` by one on every successful iteration, so the loop
    counter always equals `len(dbs)-1` and the loop runs at most the
    original length many times; we recurse on that fuel and additionally
    return the list of databases passed to `removeFunc`, in call order.
-/

/-- Connection parameters, from `pkg/db` (only the `Database` name is ever
rewritten by the pool code; the other fields ride along unchanged). -/
structure DatabaseConfig where
  Host : String
  Port : ℕ
  Username : String
  Password : String
  Database : String
deriving DecidableEq, Repr

/-- `db.Database`: a template hash plus connection parameters. -/
structure Database where
  TemplateHash : String
  Config : DatabaseConfig
deriving DecidableEq, Repr

/-- `db.TestDatabase`: an embedded `Database` plus the slot id. -/
structure TestDatabase where
  Database : Database
  ID : ℕ
deriving DecidableEq, Repr

/-- Default value used only as the (unreachable) fallback of bounds-checked
list indexing. -/
def defaultTestDB : TestDatabase :=
  { Database := { TemplateHash := "", Config := { Host := "", Port := 0, Username := "", Password := "", Database := "" } }, ID := 0 }

/-- The sentinel errors of pool.go; `ErrExternal` carries an error returned
by a caller-supplied `initFunc` / `removeFunc`. -/
inductive PoolError where
  | ErrUnknownHash
  | ErrPoolFull
  | ErrUnknownID
  | ErrNoDBReady
  | ErrInvalidIndex
  | ErrExternal (msg : String)
deriving DecidableEq, Repr

/-- `dbHashPool`: the per-hash slot slice and the two id sets. -/
structure dbHashPool where
  dbs : List TestDatabase
  ready : Finset ℕ
  dirty : Finset ℕ
deriving DecidableEq

/-- `newDBHashPool` (the Go argument only pre-sizes the slice). -/
def newDBHashPool (_maxPoolSize : ℕ) : dbHashPool :=
  { dbs := [], ready := ∅, dirty := ∅ }

/-- `DBPool`: hash registry plus the capacity bound. -/
structure DBPool where
  pools : String → Option dbHashPool
  maxPoolSize : ℕ

/-- `NewDBPool`. -/
def NewDBPool (maxPoolSize : ℕ) : DBPool :=
  { pools := fun _ => none, maxPoolSize := maxPoolSize }

/-- Point update of the registry (`p.pools[hash] = pool`). -/
def setPool (m : String → Option dbHashPool) (hash : String) (pool : dbHashPool) :
    String → Option dbHashPool :=
  fun h => if h = hash then some pool else m h

/-- Registry deletion (`delete(p.pools, hash)`). -/
def delPool (m : String → Option dbHashPool) (hash : String) :
    String → Option dbHashPool :=
  fun h => if h = hash then none else m h

/-- A model of Go's "first key of the map" used by `popFirstKey`: on a
non-empty set the choice is a member of the set. -/
def PickValid (pick : Finset ℕ → ℕ) : Prop :=
  ∀ s : Finset ℕ, s.Nonempty → pick s ∈ s

/-- A concrete valid pick (takes the least element). -/
def minPick (s : Finset ℕ) : ℕ :=
  if h : s.Nonempty then s.min' h else 0

theorem minPick_valid : PickValid minPick := by
  intro s hs
  simp only [minPick, dif_pos hs]
  exact s.min'_mem hs

/-- `popFirstKey`: take one key out of the id set.  (The Go version returns
`-1` on an empty map; both call sites guard with a non-emptiness test.) -/
def popFirstKey (pick : Finset ℕ → ℕ) (idMap : Finset ℕ) : ℕ × Finset ℕ :=
  let id := pick idMap
  (id, idMap.erase id)

/-- `GetDB`: pop a ready id if any, else a dirty id (isDirty = true), else
`ErrNoDBReady`; then the index sanity checks, then the slot itself.  The Go
check `index < 0` is vacuous for `ℕ` ids (the popped key came from a set of
naturals) and is dropped. -/
def GetDB (pick : Finset ℕ → ℕ) (p : DBPool) (hash : String) :
    Except PoolError (TestDatabase × Bool) × DBPool :=
  match p.pools hash with
  | none => (.error .ErrUnknownHash, p)
  | some pool =>
    let popped : Option (ℕ × Bool × dbHashPool) :=
      if 0 < pool.ready.card then
        let pr := popFirstKey pick pool.ready
        some (pr.1, false, { pool with ready := pr.2 })
      else if 0 < pool.dirty.card then
        let pr := popFirstKey pick pool.dirty
        some (pr.1, true, { pool with dirty := pr.2 })
      else none
    match popped with
    | none => (.error .ErrNoDBReady, p)
    | some (index, isDirty, pool1) =>
      let p1 : DBPool := { p with pools := setPool p.pools hash pool1 }
      if p.maxPoolSize ≤ index then (.error .ErrInvalidIndex, p1)
      else if pool1.dbs.length ≤ index then (.error .ErrInvalidIndex, p1)
      else (.ok (pool1.dbs.getD index defaultTestDB, isDirty), p1)

/-- `AddTestDatabase`: look up (or silently create) the hash pool, allocate
`index = len(dbs)`, reject when full, derive the db name
`fmt.Sprintf("%s%03d", dbNamePrefix, index)`, run `initFunc`, and only on
success append the slot and mark it ready. -/
def pad3 (n : ℕ) : String :=
  let s := toString n
  if s.length < 3 then String.mk (List.replicate (3 - s.length) '0') ++ s else s

def AddTestDatabase (p : DBPool) (template : Database) (dbNamePfx : String)
    (initFunc : TestDatabase → Except String Unit) :
    Except PoolError TestDatabase × DBPool :=
  let hash := template.TemplateHash
  -- pool := p.pools[hash]; if nil, a fresh pool is registered *before* any check
  let pool := (p.pools hash).getD (newDBHashPool p.maxPoolSize)
  let p0 : DBPool := { p with pools := setPool p.pools hash pool }
  let index := pool.dbs.length
  if p.maxPoolSize ≤ index then (.error .ErrPoolFull, p0)
  else
    let dbName := dbNamePfx ++ pad3 index
    let newTestDB : TestDatabase :=
      { Database := { TemplateHash := template.TemplateHash,
                      Config := { template.Config with Database := dbName } },
        ID := index }
    match initFunc newTestDB with
    | .error e => (.error (.ErrExternal e), p0)
    | .ok _ =>
      let pool1 : dbHashPool :=
        { pool with dbs := pool.dbs ++ [newTestDB], ready := insert index pool.ready }
      (.ok newTestDB, { p with pools := setPool p.pools hash pool1 })

/-- `ReturnTestDatabase`: bounds check first (before the hash lookup), then
the double-return check against `dirty` only, then mark dirty.  The id is
`Int` because the Go code checks `id < 0`.  (Go's `pool.dirty != nil` is
always true and adds nothing to `len(pool.dirty) > 0`.) -/
def ReturnTestDatabase (p : DBPool) (hash : String) (id : Int) :
    Except PoolError Unit × DBPool :=
  if id < 0 ∨ (p.maxPoolSize : Int) ≤ id then (.error .ErrInvalidIndex, p)
  else
    match p.pools hash with
    | none => (.error .ErrUnknownHash, p)
    | some pool =>
      let idN := id.toNat
      if 0 < pool.dirty.card ∧ idN ∈ pool.dirty then (.error .ErrUnknownID, p)
      else
        (.ok (), { p with pools := setPool p.pools hash { pool with dirty := insert idN pool.dirty } })

/-- The loop body of `removeAllFromPool`: the counter always equals
`len(dbs)-1`, `dbs` shrinks by one per successful `removeFunc` call, and we
additionally accumulate the databases passed to `removeFunc` in call
order.  The fuel is the initial `len(dbs)`. -/
def removeLoop (removeFunc : TestDatabase → Except String Unit) :
    ℕ → dbHashPool → Except PoolError Unit × dbHashPool × List TestDatabase
  | 0, pool => (.ok (), pool, [])
  | n + 1, pool =>
    match pool.dbs.getLast? with
    | none => (.ok (), pool, [])
    | some lastDB =>
      match removeFunc lastDB with
      | .error e => (.error (.ErrExternal e), pool, [lastDB])
      | .ok _ =>
        let id := pool.dbs.length - 1
        let pool1 : dbHashPool :=
          { dbs := pool.dbs.dropLast, ready := pool.ready.erase id,
            dirty := pool.dirty.erase id }
        let r := removeLoop removeFunc n pool1
        (r.1, r.2.1, lastDB :: r.2.2)

/-- `removeAllFromPool`: drain from the highest id downwards. -/
def removeAllFromPool (removeFunc : TestDatabase → Except String Unit)
    (pool : dbHashPool) : Except PoolError Unit × dbHashPool × List TestDatabase :=
  removeLoop removeFunc pool.dbs.length pool

/-- `RemoveAllWithHash`: drain the hash pool.  Note the source keeps the
(possibly partially drained) pool registered under the hash: there is no
`delete(p.pools, hash)` here. -/
def RemoveAllWithHash (p : DBPool) (hash : String)
    (removeFunc : TestDatabase → Except String Unit) :
    Except PoolError Unit × DBPool × List TestDatabase :=
  match p.pools hash with
  | none => (.error .ErrUnknownHash, p, [])
  | some pool =>
    let r := removeAllFromPool removeFunc pool
    (r.1, { p with pools := setPool p.pools hash r.2.1 }, r.2.2)

/-- `RemoveAll`: range over the registry (iteration order given by
`hashes`), draining each pool and deleting its entry on success; on error
the partially drained pool stays registered and the error is returned. -/
def RemoveAll (removeFunc : TestDatabase → Except String Unit) :
    DBPool → List String → Except PoolError Unit × DBPool × List TestDatabase
  | p, [] => (.ok (), p, [])
  | p, hash :: rest =>
    match p.pools hash with
    | none => RemoveAll removeFunc p rest
    | some pool =>
      let r := removeAllFromPool removeFunc pool
      match r.1 with
      | .error e => (.error e, { p with pools := setPool p.pools hash r.2.1 }, r.2.2)
      | .ok _ =>
        let p1 : DBPool := { p with pools := delPool p.pools hash }
        let rr := RemoveAll removeFunc p1 rest
        (rr.1, rr.2.1, r.2.2 ++ rr.2.2)

/-!
## Reachability

A pool state is reachable when it arises from `NewDBPool maxPoolSize` by a
sequence of the five exported operations, with arbitrary arguments (any
hash, template, id, init/remove functions, any pop choice, any registry
iteration order).
-/

/-- One application of an exported pool operation (only the state is
retained). -/
inductive PoolStep : DBPool → DBPool → Prop where
  | get (pick : Finset ℕ → ℕ) (p : DBPool) (hash : String) :
      PoolStep p (GetDB pick p hash).2
  | add (p : DBPool) (template : Database) (dbNamePfx : String)
      (initFunc : TestDatabase → Except String Unit) :
      PoolStep p (AddTestDatabase p template dbNamePfx initFunc).2
  | ret (p : DBPool) (hash : String) (id : Int) :
      PoolStep p (ReturnTestDatabase p hash id).2
  | remWith (p : DBPool) (hash : String)
      (removeFunc : TestDatabase → Except String Unit) :
      PoolStep p (RemoveAllWithHash p hash removeFunc).2.1
  | remAll (p : DBPool) (hashes : List String)
      (removeFunc : TestDatabase → Except String Unit) :
      PoolStep p (RemoveAll removeFunc p hashes).2.1

/-- Reachable from a fresh pool of the given capacity. -/
def PoolReach (maxPoolSize : ℕ) (p : DBPool) : Prop :=
  Relation.ReflTransGen PoolStep (NewDBPool maxPoolSize) p

/-- The per-hash-pool invariant that actually holds in the source: every
ready id indexes an existing slot and respects the capacity bound, and the
slot slice never exceeds the capacity.  (`dirty` satisfies no such bound:
`ReturnTestDatabase` inserts any id below `maxPoolSize`.) -/
def hpInv (maxPoolSize : ℕ) (pool : dbHashPool) : Prop :=
  (∀ id ∈ pool.ready, id < pool.dbs.length ∧ id < maxPoolSize) ∧
  pool.dbs.length ≤ maxPoolSize

/-- The registry-wide invariant. -/
def poolInv (p : DBPool) : Prop :=
  ∀ hash pool, p.pools hash = some pool → hpInv p.maxPoolSize pool

theorem setPool_inv {p : DBPool} {hash : String} {pool : dbHashPool}
    (hp : poolInv p) (hpool : hpInv p.maxPoolSize pool) :
    poolInv { p with pools := setPool p.pools hash pool } := by
  intro h hp' hsome
  simp only [setPool] at hsome
  split at hsome
  · cases hsome; exact hpool
  · exact hp h hp' hsome

theorem delPool_inv {p : DBPool} {hash : String} (hp : poolInv p) :
    poolInv { p with pools := delPool p.pools hash } := by
  intro h hp' hsome
  simp only [delPool] at hsome
  split at hsome
  · cases hsome
  · exact hp h hp' hsome

theorem hpInv_empty (m : ℕ) : hpInv m (newDBHashPool m) := by
  constructor
  · intro id hid
    simp [newDBHashPool] at hid
  · simp [newDBHashPool]

theorem GetDB_inv (pick : Finset ℕ → ℕ) (p : DBPool) (hash : String)
    (hp : poolInv p) : poolInv (GetDB pick p hash).2 := by
  unfold GetDB
  split
  · exact hp
  · rename_i pool hpool
    have hinv := hp hash pool hpool
    simp only []
    split
    · exact hp
    · rename_i popped index isDirty pool1 heq
      have hpool1 : hpInv p.maxPoolSize pool1 := by
        dsimp only [popFirstKey] at heq
        split at heq
        · cases heq
          refine ⟨?_, hinv.2⟩
          intro id hid
          exact hinv.1 id (Finset.mem_of_mem_erase hid)
        · split at heq
          · cases heq
            exact hinv
          · cases heq
      split
      · exact setPool_inv hp hpool1
      · split
        · exact setPool_inv hp hpool1
        · exact setPool_inv hp hpool1

theorem AddTestDatabase_inv (p : DBPool) (template : Database)
    (dbNamePfx : String) (initFunc : TestDatabase → Except String Unit)
    (hp : poolInv p) : poolInv (AddTestDatabase p template dbNamePfx initFunc).2 := by
  unfold AddTestDatabase
  have hpool : hpInv p.maxPoolSize ((p.pools template.TemplateHash).getD (newDBHashPool p.maxPoolSize)) := by
    rcases h : p.pools template.TemplateHash with _ | pool
    · simpa [h] using hpInv_empty p.maxPoolSize
    · simpa [h] using hp _ pool h
  simp only []
  split
  · exact setPool_inv hp hpool
  · rename_i hlt
    push_neg at hlt
    split
    · exact setPool_inv hp hpool
    · apply setPool_inv hp
      constructor
      · intro id hid
        rcases Finset.mem_insert.mp hid with h1 | h1
        · subst h1
          simp only [List.length_append, List.length_cons, List.length_nil]
          exact ⟨by omega, hlt⟩
        · have := hpool.1 id h1
          simp only [List.length_append, List.length_cons, List.length_nil]
          exact ⟨by omega, this.2⟩
      · simp only [List.length_append, List.length_cons, List.length_nil]
        omega

theorem ReturnTestDatabase_inv (p : DBPool) (hash : String) (id : Int)
    (hp : poolInv p) : poolInv (ReturnTestDatabase p hash id).2 := by
  unfold ReturnTestDatabase
  split
  · exact hp
  · split
    · exact hp
    · rename_i pool hpool
      simp only []
      split
      · exact hp
      · apply setPool_inv hp
        exact ⟨(hp hash pool hpool).1, (hp hash pool hpool).2⟩

theorem removeLoop_inv (removeFunc : TestDatabase → Except String Unit)
    (m : ℕ) : ∀ (n : ℕ) (pool : dbHashPool), hpInv m pool →
    hpInv m (removeLoop removeFunc n pool).2.1 := by
  intro n
  induction n with
  | zero => intro pool h; exact h
  | succ n ih =>
    intro pool h
    unfold removeLoop
    split
    · exact h
    · split
      · exact h
      · apply ih
        constructor
        · intro id hid
          have hmem := Finset.mem_of_mem_erase hid
          have hne := Finset.ne_of_mem_erase hid
          have := h.1 id hmem
          simp only [List.length_dropLast]
          omega
        · have h2 := h.2
          simp only [List.length_dropLast]
          omega

theorem RemoveAllWithHash_inv (p : DBPool) (hash : String)
    (removeFunc : TestDatabase → Except String Unit)
    (hp : poolInv p) : poolInv (RemoveAllWithHash p hash removeFunc).2.1 := by
  unfold RemoveAllWithHash
  split
  · exact hp
  · rename_i pool hpool
    exact setPool_inv hp (removeLoop_inv removeFunc _ _ pool (hp hash pool hpool))

theorem RemoveAll_inv (removeFunc : TestDatabase → Except String Unit) :
    ∀ (hashes : List String) (p : DBPool), poolInv p →
    poolInv (RemoveAll removeFunc p hashes).2.1 := by
  intro hashes
  induction hashes with
  | nil => intro p hp; exact hp
  | cons hash rest ih =>
    intro p hp
    unfold RemoveAll
    split
    · exact ih p hp
    · rename_i pool hpool
      simp only []
      split
      · exact setPool_inv hp (removeLoop_inv removeFunc _ _ pool (hp hash pool hpool))
      · exact ih _ (delPool_inv hp)

theorem PoolStep_inv {p p' : DBPool} (h : PoolStep p p') (hp : poolInv p) :
    poolInv p' := by
  cases h with
  | get pick p hash => exact GetDB_inv pick p hash hp
  | add p template dbNamePfx initFunc => exact AddTestDatabase_inv p template dbNamePfx initFunc hp
  | ret p hash id => exact ReturnTestDatabase_inv p hash id hp
  | remWith p hash removeFunc => exact RemoveAllWithHash_inv p hash removeFunc hp
  | remAll p hashes removeFunc => exact RemoveAll_inv removeFunc hashes p hp

theorem PoolReach_inv {m : ℕ} {p : DBPool} (h : PoolReach m p) : poolInv p := by
  induction h with
  | refl => intro hash pool hsome; cases hsome
  | tail _ hstep ih => exact PoolStep_inv hstep ih

theorem RemoveAll_maxPoolSize (removeFunc : TestDatabase → Except String Unit) :
    ∀ (hashes : List String) (p : DBPool),
    (RemoveAll removeFunc p hashes).2.1.maxPoolSize = p.maxPoolSize := by
  intro hashes
  induction hashes with
  | nil => intro p; rfl
  | cons hash rest ih =>
    intro p
    unfold RemoveAll
    split
    · exact ih _
    · simp only []
      split
      · rfl
      · exact ih _

/-- All operations preserve the capacity field. -/
theorem PoolStep_maxPoolSize {p p' : DBPool} (h : PoolStep p p') :
    p'.maxPoolSize = p.maxPoolSize := by
  cases h with
  | get pick p hash =>
    unfold GetDB
    split
    · rfl
    · simp only []
      split
      · rfl
      · split
        · rfl
        · split
          · rfl
          · rfl
  | add p template dbNamePfx initFunc =>
    unfold AddTestDatabase
    simp only []
    split
    · rfl
    · split
      · rfl
      · rfl
  | ret p hash id =>
    unfold ReturnTestDatabase
    split
    · rfl
    · split
      · rfl
      · simp only []
        split
        · rfl
        · rfl
  | remWith p hash removeFunc =>
    unfold RemoveAllWithHash
    split
    · rfl
    · rfl
  | remAll p hashes removeFunc => exact RemoveAll_maxPoolSize removeFunc hashes p

theorem PoolReach_maxPoolSize {m : ℕ} {p : DBPool} (h : PoolReach m p) :
    p.maxPoolSize = m := by
  induction h with
  | refl => rfl
  | tail _ hstep ih => rw [PoolStep_maxPoolSize hstep, ih]

/-!
## Characterization of the drain loop (`removeAllFromPool`)
-/

theorem removeLoop_ok_spec (f : TestDatabase → Except String Unit) :
    ∀ (n : ℕ) (pool : dbHashPool), pool.dbs.length = n →
    (removeLoop f n pool).1 = .ok () →
    (removeLoop f n pool).2.2 = pool.dbs.reverse ∧ (removeLoop f n pool).2.1.dbs = [] := by
  intro n
  induction n with
  | zero =>
    intro pool hlen _
    have hnil : pool.dbs = [] := List.length_eq_zero.mp hlen
    simp [removeLoop, hnil]
  | succ n ih =>
    intro pool hlen hok
    rcases hlast : pool.dbs.getLast? with _ | lastDB
    · rw [List.getLast?_eq_none_iff] at hlast
      rw [hlast] at hlen
      simp at hlen
    · rcases hf : f lastDB with e | u
      · simp only [removeLoop, hlast, hf] at hok
        exact Except.noConfusion hok
      · have hsplit : pool.dbs.dropLast ++ [lastDB] = pool.dbs :=
          List.dropLast_append_getLast? lastDB hlast
        have hlen1 : pool.dbs.dropLast.length = n := by
          simp only [List.length_dropLast, hlen]
          omega
        simp only [removeLoop, hlast, hf] at hok ⊢
        have := ih ⟨pool.dbs.dropLast, pool.ready.erase (pool.dbs.length - 1),
          pool.dirty.erase (pool.dbs.length - 1)⟩ hlen1 hok
        refine ⟨?_, this.2⟩
        rw [this.1]
        dsimp only
        conv_rhs => rw [← hsplit]
        rw [List.reverse_append]
        rfl

theorem removeLoop_err_spec (f : TestDatabase → Except String Unit) :
    ∀ (n : ℕ) (pool : dbHashPool), pool.dbs.length = n →
    ∀ e, (removeLoop f n pool).1 = .error e →
    ∃ k msg, k < n ∧ e = .ErrExternal msg ∧
      f (pool.dbs.getD k defaultTestDB) = .error msg ∧
      (removeLoop f n pool).2.1.dbs = pool.dbs.take (k + 1) ∧
      (removeLoop f n pool).2.2 = (pool.dbs.drop k).reverse := by
  intro n
  induction n with
  | zero =>
    intro pool hlen e herr
    simp [removeLoop] at herr
  | succ n ih =>
    intro pool hlen e herr
    rcases hlast : pool.dbs.getLast? with _ | lastDB
    · simp only [removeLoop, hlast] at herr
      exact Except.noConfusion herr
    · have hne : pool.dbs ≠ [] := by
        intro h0
        rw [h0] at hlast
        cases hlast
      have hsplit : pool.dbs.dropLast ++ [lastDB] = pool.dbs :=
        List.dropLast_append_getLast? lastDB hlast
      have hlen1 : pool.dbs.dropLast.length = n := by
        simp only [List.length_dropLast, hlen]
        omega
      rcases hf : f lastDB with emsg | u
      · -- the last slot itself fails: k = n
        refine ⟨n, emsg, Nat.lt_succ_self n, ?_, ?_, ?_, ?_⟩
        · simp only [removeLoop, hlast, hf] at herr
          cases herr
          rfl
        · have hcat := List.getElem?_concat_length pool.dbs.dropLast lastDB
          rw [hlen1] at hcat
          rw [List.getD_eq_getElem?_getD, ← hsplit, hcat]
          exact hf
        · simp only [removeLoop, hlast, hf]
          rw [List.take_of_length_le (by omega)]
        · simp only [removeLoop, hlast, hf]
          conv_rhs => rw [← hsplit, ← hlen1]
          rw [List.drop_left]
          rfl
      · -- the last slot succeeds, the error comes from the recursion
        have herr1 : (removeLoop f n ⟨pool.dbs.dropLast,
            pool.ready.erase (pool.dbs.length - 1),
            pool.dirty.erase (pool.dbs.length - 1)⟩).1 = .error e := by
          simp only [removeLoop, hlast, hf] at herr
          exact herr
        obtain ⟨k, msg, hk, hemsg, hfk, hdbs, htr⟩ := ih _ hlen1 e herr1
        dsimp only at hfk hdbs htr
        refine ⟨k, msg, by omega, hemsg, ?_, ?_, ?_⟩
        · have hgd2 : pool.dbs.dropLast[k]? = pool.dbs[k]? := by
            conv_rhs => rw [← hsplit]
            exact (List.getElem?_append_left (by omega)).symm
          rw [List.getD_eq_getElem?_getD, ← hgd2, ← List.getD_eq_getElem?_getD]
          exact hfk
        · simp only [removeLoop, hlast, hf]
          rw [hdbs, List.dropLast_eq_take, List.take_take]
          congr 1
          omega
        · simp only [removeLoop, hlast, hf]
          rw [htr]
          have hdrop : pool.dbs.drop k = pool.dbs.dropLast.drop k ++ [lastDB] := by
            conv_lhs => rw [← hsplit]
            exact List.drop_append_of_le_length (by omega)
          rw [hdrop, List.reverse_append]
          rfl

/-- The drain loop only ever shrinks the id sets. -/
theorem removeLoop_sets_subset (f : TestDatabase → Except String Unit) :
    ∀ (n : ℕ) (pool : dbHashPool),
    (removeLoop f n pool).2.1.ready ⊆ pool.ready ∧
    (removeLoop f n pool).2.1.dirty ⊆ pool.dirty := by
  intro n
  induction n with
  | zero => intro pool; exact ⟨Finset.Subset.refl _, Finset.Subset.refl _⟩
  | succ n ih =>
    intro pool
    rcases hlast : pool.dbs.getLast? with _ | lastDB
    · simp only [removeLoop, hlast]
      exact ⟨Finset.Subset.refl _, Finset.Subset.refl _⟩
    · rcases hf : f lastDB with e | u
      · simp only [removeLoop, hlast, hf]
        exact ⟨Finset.Subset.refl _, Finset.Subset.refl _⟩
      · simp only [removeLoop, hlast, hf]
        refine ⟨Finset.Subset.trans (ih _).1 (Finset.erase_subset _ _),
          Finset.Subset.trans (ih _).2 (Finset.erase_subset _ _)⟩

/-- On success every drained id has been deleted from both id sets. -/
theorem removeLoop_ok_sets (f : TestDatabase → Except String Unit) :
    ∀ (n : ℕ) (pool : dbHashPool), pool.dbs.length = n →
    (removeLoop f n pool).1 = .ok () → ∀ j, j < n →
    j ∉ (removeLoop f n pool).2.1.ready ∧ j ∉ (removeLoop f n pool).2.1.dirty := by
  intro n
  induction n with
  | zero => intro pool _ _ j hj; omega
  | succ n ih =>
    intro pool hlen hok j hj
    rcases hlast : pool.dbs.getLast? with _ | lastDB
    · rw [List.getLast?_eq_none_iff] at hlast
      rw [hlast] at hlen
      simp at hlen
    · rcases hf : f lastDB with e | u
      · simp only [removeLoop, hlast, hf] at hok
        exact Except.noConfusion hok
      · have hlen1 : pool.dbs.dropLast.length = n := by
          simp only [List.length_dropLast, hlen]
          omega
        have hid : pool.dbs.length - 1 = n := by omega
        simp only [removeLoop, hlast, hf, hid] at hok ⊢
        rcases Nat.lt_succ_iff_lt_or_eq.mp hj with hj' | hj'
        · exact ih ⟨pool.dbs.dropLast, pool.ready.erase n, pool.dirty.erase n⟩ hlen1 hok j hj'
        · subst hj'
          have hsub := removeLoop_sets_subset f j
            ⟨pool.dbs.dropLast, pool.ready.erase j, pool.dirty.erase j⟩
          exact ⟨fun hmem => Finset.not_mem_erase j pool.ready (hsub.1 hmem),
                 fun hmem => Finset.not_mem_erase j pool.dirty (hsub.2 hmem)⟩

/-- On failure every id at or above the surviving length (the drained
suffix) has been deleted from both id sets. -/
theorem removeLoop_err_sets (f : TestDatabase → Except String Unit) :
    ∀ (n : ℕ) (pool : dbHashPool), pool.dbs.length = n →
    ∀ e, (removeLoop f n pool).1 = .error e →
    ∀ j, (removeLoop f n pool).2.1.dbs.length ≤ j → j < n →
    j ∉ (removeLoop f n pool).2.1.ready ∧ j ∉ (removeLoop f n pool).2.1.dirty := by
  intro n
  induction n with
  | zero => intro pool _ e _ j _ hj; omega
  | succ n ih =>
    intro pool hlen e herr j hjlow hj
    rcases hlast : pool.dbs.getLast? with _ | lastDB
    · simp only [removeLoop, hlast] at herr
      exact Except.noConfusion herr
    · rcases hf : f lastDB with emsg | u
      · simp only [removeLoop, hlast, hf] at hjlow
        omega
      · have hlen1 : pool.dbs.dropLast.length = n := by
          simp only [List.length_dropLast, hlen]
          omega
        have hid : pool.dbs.length - 1 = n := by omega
        have herr1 : (removeLoop f n ⟨pool.dbs.dropLast,
            pool.ready.erase n, pool.dirty.erase n⟩).1 = .error e := by
          simp only [removeLoop, hlast, hf, hid] at herr
          exact herr
        simp only [removeLoop, hlast, hf, hid] at hjlow ⊢
        rcases Nat.lt_succ_iff_lt_or_eq.mp hj with hj' | hj'
        · exact ih ⟨pool.dbs.dropLast, pool.ready.erase n, pool.dirty.erase n⟩
            hlen1 e herr1 j hjlow hj'
        · subst hj'
          have hsub := removeLoop_sets_subset f j
            ⟨pool.dbs.dropLast, pool.ready.erase j, pool.dirty.erase j⟩
          exact ⟨fun hmem => Finset.not_mem_erase j pool.ready (hsub.1 hmem),
                 fun hmem => Finset.not_mem_erase j pool.dirty (hsub.2 hmem)⟩

/-- The first database handed to `removeFunc` is always the last slot. -/
theorem removeLoop_trace_head (f : TestDatabase → Except String Unit)
    (n : ℕ) (pool : dbHashPool) (hlen : pool.dbs.length = n + 1) :
    (removeLoop f (n + 1) pool).2.2.head? = pool.dbs.getLast? := by
  have hne : pool.dbs ≠ [] := by
    intro h0
    rw [h0] at hlen
    simp at hlen
  rcases hlast : pool.dbs.getLast? with _ | lastDB
  · rw [List.getLast?_eq_none_iff] at hlast
    exact absurd hlast hne
  · rcases hf : f lastDB with e | u
    · simp [removeLoop, hlast, hf]
    · simp [removeLoop, hlast, hf]

/-- Whatever happens, the drain loop only ever truncates the slot slice:
the result is a prefix of the input. -/
theorem removeLoop_dbs_take (f : TestDatabase → Except String Unit) :
    ∀ (n : ℕ) (pool : dbHashPool),
    ∃ k, (removeLoop f n pool).2.1.dbs = pool.dbs.take k := by
  intro n
  induction n with
  | zero =>
    intro pool
    exact ⟨pool.dbs.length, (List.take_length pool.dbs).symm⟩
  | succ n ih =>
    intro pool
    rcases hlast : pool.dbs.getLast? with _ | lastDB
    · simp only [removeLoop, hlast]
      exact ⟨pool.dbs.length, (List.take_length pool.dbs).symm⟩
    · rcases hf : f lastDB with e | u
      · simp only [removeLoop, hlast, hf]
        exact ⟨pool.dbs.length, (List.take_length pool.dbs).symm⟩
      · simp only [removeLoop, hlast, hf]
        obtain ⟨k, hk⟩ := ih ⟨pool.dbs.dropLast,
          pool.ready.erase (pool.dbs.length - 1), pool.dirty.erase (pool.dbs.length - 1)⟩
        refine ⟨min k (pool.dbs.length - 1), ?_⟩
        simp only at hk
        rw [hk, List.dropLast_eq_take, List.take_take]

/-!
## Concrete fixtures and decidability for evaluation
-/

/-- Equality of `Except` results is decidable (used to evaluate the model on
concrete inputs). -/
instance {e a : Type} [DecidableEq e] [DecidableEq a] : DecidableEq (Except e a) := fun x y =>
  match x, y with
  | .error e1, .error e2 =>
    if h : e1 = e2 then .isTrue (by rw [h]) else .isFalse (by intro hc; cases hc; exact h rfl)
  | .error _, .ok _ => .isFalse (by intro hc; cases hc)
  | .ok _, .error _ => .isFalse (by intro hc; cases hc)
  | .ok v1, .ok v2 =>
    if h : v1 = v2 then .isTrue (by rw [h]) else .isFalse (by intro hc; cases hc; exact h rfl)

theorem setPool_same (m : String → Option dbHashPool) (hash : String) (pool : dbHashPool) :
    setPool m hash pool hash = some pool := by
  simp [setPool]

theorem setPool_other (m : String → Option dbHashPool) (hash h' : String) (pool : dbHashPool)
    (hne : h' ≠ hash) : setPool m hash pool h' = m h' := by
  simp [setPool, hne]

theorem delPool_same (m : String → Option dbHashPool) (hash : String) :
    delPool m hash hash = none := by
  simp [delPool]

theorem delPool_other (m : String → Option dbHashPool) (hash h' : String)
    (hne : h' ≠ hash) : delPool m hash h' = m h' := by
  simp [delPool, hne]

def cfg0 : DatabaseConfig := ⟨"localhost", 5432, "u", "pw", "postgres"⟩

def tmplH : Database := ⟨"h", cfg0⟩

def initOk : TestDatabase → Except String Unit := fun _ => .ok ()

def remOk : TestDatabase → Except String Unit := fun _ => .ok ()

def initFail : TestDatabase → Except String Unit := fun _ => .error "boom"

/-- The slot that `AddTestDatabase (NewDBPool 2) tmplH "test_h_" initOk`
creates: name `test_h_` ++ `000`, id 0. -/
def tdb0 : TestDatabase := ⟨⟨"h", ⟨"localhost", 5432, "u", "pw", "test_h_000"⟩⟩, 0⟩

/-- One slot under hash "h": `dbs = [tdb0]`, `ready = {0}`, `dirty = ∅`. -/
def poolOne : DBPool := (AddTestDatabase (NewDBPool 2) tmplH "test_h_" initOk).2

/-- `poolOne` after `ReturnTestDatabase "h" 0`: slot 0 is in `ready` and in
`dirty` at once. -/
def sReadyDirty : DBPool := (ReturnTestDatabase poolOne "h" 0).2

/-- A registered but empty hash pool (a failed `initFunc` still registers
the fresh pool). -/
def emptyPoolH : DBPool := (AddTestDatabase (NewDBPool 1) tmplH "test_h_" initFail).2

/-!
## Claim theorems
-/

/-- C5: `ReturnTestDatabase` returns `ErrInvalidIndex` for every id outside
`[0, maxPoolSize)` (checked before any per-hash work), `ErrUnknownHash` when
no hash pool exists, and immediately after a successful return the same
return yields `ErrUnknownID`. -/
theorem C5_return_validation_and_double_return :
    (∀ (p : DBPool) (hash : String) (id : Int),
       (id < 0 ∨ (p.maxPoolSize : Int) ≤ id) →
       (ReturnTestDatabase p hash id).1 = .error .ErrInvalidIndex) ∧
    (∀ (p : DBPool) (hash : String) (id : Int),
       ¬(id < 0 ∨ (p.maxPoolSize : Int) ≤ id) → p.pools hash = none →
       (ReturnTestDatabase p hash id).1 = .error .ErrUnknownHash) ∧
    (∀ (p : DBPool) (hash : String) (id : Int),
       (ReturnTestDatabase p hash id).1 = .ok () →
       (ReturnTestDatabase (ReturnTestDatabase p hash id).2 hash id).1 = .error .ErrUnknownID) := by
  refine ⟨?_, ?_, ?_⟩
  · intro p hash id h
    unfold ReturnTestDatabase
    rw [if_pos h]
  · intro p hash id h hnone
    unfold ReturnTestDatabase
    rw [if_neg h, hnone]
  · intro p hash id hok
    by_cases h1 : id < 0 ∨ (p.maxPoolSize : Int) ≤ id
    · unfold ReturnTestDatabase at hok
      rw [if_pos h1] at hok
      exact Except.noConfusion hok
    · rcases hp : p.pools hash with _ | pool
      · unfold ReturnTestDatabase at hok
        rw [if_neg h1, hp] at hok
        exact Except.noConfusion hok
      · by_cases h2 : 0 < pool.dirty.card ∧ id.toNat ∈ pool.dirty
        · unfold ReturnTestDatabase at hok
          rw [if_neg h1, hp] at hok
          dsimp only at hok
          rw [if_pos h2] at hok
          exact Except.noConfusion hok
        · have hs : (ReturnTestDatabase p hash id).2 =
              { p with pools := setPool p.pools hash ({ pool with dirty := insert id.toNat pool.dirty }) } := by
            unfold ReturnTestDatabase
            rw [if_neg h1, hp]
            dsimp only
            rw [if_neg h2]
          rw [hs]
          unfold ReturnTestDatabase
          dsimp only
          rw [if_neg h1, setPool_same]
          dsimp only
          rw [if_pos ⟨Finset.card_pos.mpr ⟨id.toNat, Finset.mem_insert_self _ _⟩,
            Finset.mem_insert_self _ _⟩]

/-- C5 witness: concrete instances of all three parts. -/
theorem C5_witness :
    (ReturnTestDatabase (NewDBPool 1) "h" (-1)).1 = .error .ErrInvalidIndex ∧
    (ReturnTestDatabase (NewDBPool 1) "h" 0).1 = .error .ErrUnknownHash ∧
    (ReturnTestDatabase (ReturnTestDatabase poolOne "h" 0).2 "h" 0).1 = .error .ErrUnknownID :=
  ⟨C5_return_validation_and_double_return.1 (NewDBPool 1) "h" (-1) (by decide),
   C5_return_validation_and_double_return.2.1 (NewDBPool 1) "h" 0 (by decide) rfl,
   C5_return_validation_and_double_return.2.2 poolOne "h" 0 (by decide)⟩

/-- C3 counterexample: in `poolOne`, slot 0 sits in `ready` (never handed
out by `GetDB`) and id 1 was never allocated, yet `ReturnTestDatabase`
accepts both instead of returning `ErrUnknownID`: the code tracks no
`inUse` set and only rejects ids already in `dirty`. -/
theorem C3_counterexample :
    poolOne.pools "h" = some ⟨[tdb0], {0}, ∅⟩ ∧
    (ReturnTestDatabase poolOne "h" 0).1 = .ok () ∧
    (ReturnTestDatabase poolOne "h" 1).1 = .ok () := by
  refine ⟨by decide, by decide, by decide⟩

/-- C3 amended: `ReturnTestDatabase` implements double-return protection
only.  For an existing hash pool and an in-range id, it returns
`ErrUnknownID` exactly when the id is already in `dirty`; any other id —
including one still in `ready` or never allocated — is accepted and marked
dirty. -/
theorem C3_return_rejects_only_double_returns
    (p : DBPool) (hash : String) (id : Int) (pool : dbHashPool)
    (hrange : ¬(id < 0 ∨ (p.maxPoolSize : Int) ≤ id))
    (hp : p.pools hash = some pool) :
    ((ReturnTestDatabase p hash id).1 = .error .ErrUnknownID ↔ id.toNat ∈ pool.dirty) ∧
    (id.toNat ∉ pool.dirty → (ReturnTestDatabase p hash id).1 = .ok ()) := by
  have hcond : (0 < pool.dirty.card ∧ id.toNat ∈ pool.dirty) ↔ id.toNat ∈ pool.dirty := by
    constructor
    · exact fun h => h.2
    · exact fun h => ⟨Finset.card_pos.mpr ⟨id.toNat, h⟩, h⟩
  constructor
  · constructor
    · intro herr
      by_contra hmem
      unfold ReturnTestDatabase at herr
      rw [if_neg hrange, hp] at herr
      dsimp only at herr
      rw [if_neg (fun h => hmem (hcond.mp h))] at herr
      exact Except.noConfusion herr
    · intro hmem
      unfold ReturnTestDatabase
      rw [if_neg hrange, hp]
      dsimp only
      rw [if_pos (hcond.mpr hmem)]
  · intro hmem
    unfold ReturnTestDatabase
    rw [if_neg hrange, hp]
    dsimp only
    rw [if_neg (fun h => hmem (hcond.mp h))]

/-- C3 witness: id 1 of `poolOne` was never allocated, still the return is
accepted. -/
theorem C3_witness :
    (ReturnTestDatabase poolOne "h" 1).1 = .ok () ∧
    ¬((ReturnTestDatabase poolOne "h" 1).1 = .error .ErrUnknownID) := by
  have h := C3_return_rejects_only_double_returns poolOne "h" 1 ⟨[tdb0], {0}, ∅⟩
    (by decide) (by decide)
  refine ⟨h.2 (by decide), ?_⟩
  intro hbad
  exact absurd (h.1.mp hbad) (by decide)

/-- C9 counterexample: for a hash with no hash pool, `ReturnTestDatabase`
does not always fail with `ErrUnknownHash` — the index bound is checked
first, so an out-of-range id yields `ErrInvalidIndex` even though the hash
is unknown. -/
theorem C9_counterexample :
    (NewDBPool 1).pools "zzz" = none ∧
    (ReturnTestDatabase (NewDBPool 1) "zzz" 1).1 = .error .ErrInvalidIndex ∧
    ¬((ReturnTestDatabase (NewDBPool 1) "zzz" 1).1 = .error .ErrUnknownHash) := by
  refine ⟨rfl, by decide, by decide⟩

/-- C9 amended: for a hash with no hash pool, `GetDB` fails with
`ErrUnknownHash`; `ReturnTestDatabase` fails with `ErrUnknownHash` for ids
inside `[0, maxPoolSize)` (outside that range `ErrInvalidIndex` takes
precedence); and `AddTestDatabase` silently creates a fresh hash pool and
succeeds (when capacity is positive and `initFunc` succeeds) — no prior
registration of the hash is needed. -/
theorem C9_unknown_hash_behaviour (p : DBPool) (hash : String)
    (hnone : p.pools hash = none) :
    (∀ pick, (GetDB pick p hash).1 = .error .ErrUnknownHash) ∧
    (∀ id : Int, 0 ≤ id → id < (p.maxPoolSize : Int) →
       (ReturnTestDatabase p hash id).1 = .error .ErrUnknownHash) ∧
    (∀ id : Int, (id < 0 ∨ (p.maxPoolSize : Int) ≤ id) →
       (ReturnTestDatabase p hash id).1 = .error .ErrInvalidIndex) ∧
    (∀ (template : Database) (dbNamePfx : String)
       (initFunc : TestDatabase → Except String Unit),
       template.TemplateHash = hash → 0 < p.maxPoolSize →
       (∀ td, initFunc td = .ok ()) →
       ∃ tdb, (AddTestDatabase p template dbNamePfx initFunc).1 = .ok tdb ∧
         (AddTestDatabase p template dbNamePfx initFunc).2.pools hash =
           some ⟨[tdb], {0}, ∅⟩) := by
  refine ⟨?_, ?_, ?_, ?_⟩
  · intro pick
    unfold GetDB
    rw [hnone]
  · intro id h0 hmax
    unfold ReturnTestDatabase
    rw [if_neg (by omega), hnone]
  · intro id h
    unfold ReturnTestDatabase
    rw [if_pos h]
  · intro template dbNamePfx initFunc htmpl hcap hinit
    unfold AddTestDatabase
    rw [htmpl]
    dsimp only
    rw [hnone]
    dsimp only [Option.getD, newDBHashPool, List.length_nil]
    rw [if_neg (by omega), hinit]
    refine ⟨_, rfl, ?_⟩
    dsimp only
    rw [setPool_same]
    simp [insert_emptyc_eq]

/-- C9 witness: concrete unknown hash "zzz" on a fresh pool of capacity 1. -/
theorem C9_witness :
    (GetDB minPick (NewDBPool 1) "zzz").1 = .error .ErrUnknownHash ∧
    (ReturnTestDatabase (NewDBPool 1) "zzz" 0).1 = .error .ErrUnknownHash ∧
    ∃ tdb, (AddTestDatabase (NewDBPool 1) ⟨"zzz", cfg0⟩ "test_zzz_" initOk).1 = .ok tdb ∧
      (AddTestDatabase (NewDBPool 1) ⟨"zzz", cfg0⟩ "test_zzz_" initOk).2.pools "zzz" =
        some ⟨[tdb], {0}, ∅⟩ :=
  ⟨(C9_unknown_hash_behaviour (NewDBPool 1) "zzz" rfl).1 minPick,
   (C9_unknown_hash_behaviour (NewDBPool 1) "zzz" rfl).2.1 0 (by decide) (by decide),
   (C9_unknown_hash_behaviour (NewDBPool 1) "zzz" rfl).2.2.2 ⟨"zzz", cfg0⟩ "test_zzz_" initOk
     rfl (by decide) (fun _ => rfl)⟩

/-- C2 counterexample: `emptyPoolH` has a registered hash pool for "h" with
0 slots and `maxPoolSize = 1`, so the claimed preference order requires
`getDB` to extend the pool by one slot and return it; the code instead
returns `ErrNoDBReady` and leaves the slot slice empty — `GetDB` never
extends the pool. -/
theorem C2_counterexample :
    emptyPoolH.pools "h" = some ⟨[], ∅, ∅⟩ ∧
    emptyPoolH.maxPoolSize = 1 ∧
    (GetDB minPick emptyPoolH "h").1 = .error .ErrNoDBReady ∧
    (GetDB minPick emptyPoolH "h").2.pools "h" = some ⟨[], ∅, ∅⟩ := by
  refine ⟨by decide, rfl, by decide, by decide⟩

/-- C2 amended: for an existing hash pool, `GetDB` pops an id from `ready`
(isDirty = false) when `ready` is non-empty; otherwise pops from `dirty`
(isDirty = true) when `dirty` is non-empty — regardless of any ForceReturn
flag, which `GetDB` does not consult; otherwise it returns `ErrNoDBReady`.
It never extends the slot slice.  The popped id is removed from its set
even when the subsequent index sanity checks fail. -/
theorem C2_getdb_preference_order (pick : Finset ℕ → ℕ) (p : DBPool)
    (hash : String) (pool : dbHashPool) (hv : PickValid pick)
    (hp : p.pools hash = some pool) :
    (pool.ready.Nonempty →
       pick pool.ready ∈ pool.ready ∧
       (GetDB pick p hash).2.pools hash =
         some ({ pool with ready := pool.ready.erase (pick pool.ready) }) ∧
       ((GetDB pick p hash).1 = .ok (pool.dbs.getD (pick pool.ready) defaultTestDB, false) ∨
        (GetDB pick p hash).1 = .error .ErrInvalidIndex)) ∧
    (pool.ready = ∅ → pool.dirty.Nonempty →
       pick pool.dirty ∈ pool.dirty ∧
       (GetDB pick p hash).2.pools hash =
         some ({ pool with dirty := pool.dirty.erase (pick pool.dirty) }) ∧
       ((GetDB pick p hash).1 = .ok (pool.dbs.getD (pick pool.dirty) defaultTestDB, true) ∨
        (GetDB pick p hash).1 = .error .ErrInvalidIndex)) ∧
    (pool.ready = ∅ → pool.dirty = ∅ → (GetDB pick p hash).1 = .error .ErrNoDBReady) ∧
    (∀ pool', (GetDB pick p hash).2.pools hash = some pool' → pool'.dbs = pool.dbs) := by
  refine ⟨?_, ?_, ?_, ?_⟩
  · intro hne
    have hcard : 0 < pool.ready.card := Finset.card_pos.mpr hne
    refine ⟨hv pool.ready hne, ?_, ?_⟩
    · unfold GetDB
      rw [hp]
      dsimp only [popFirstKey]
      rw [if_pos hcard]
      dsimp only
      split
      · simp only [setPool_same]
      · split
        · simp only [setPool_same]
        · simp only [setPool_same]
    · unfold GetDB
      rw [hp]
      dsimp only [popFirstKey]
      rw [if_pos hcard]
      dsimp only
      split
      · right; rfl
      · split
        · right; rfl
        · left; rfl
  · intro hready hne
    have hcard : ¬ 0 < pool.ready.card := by simp [hready]
    have hcard2 : 0 < pool.dirty.card := Finset.card_pos.mpr hne
    refine ⟨hv pool.dirty hne, ?_, ?_⟩
    · unfold GetDB
      rw [hp]
      dsimp only [popFirstKey]
      rw [if_neg hcard, if_pos hcard2]
      dsimp only
      split
      · simp only [setPool_same]
      · split
        · simp only [setPool_same]
        · simp only [setPool_same]
    · unfold GetDB
      rw [hp]
      dsimp only [popFirstKey]
      rw [if_neg hcard, if_pos hcard2]
      dsimp only
      split
      · right; rfl
      · split
        · right; rfl
        · left; rfl
  · intro hready hdirty
    unfold GetDB
    rw [hp]
    dsimp only [popFirstKey]
    rw [if_neg (by simp [hready]), if_neg (by simp [hdirty])]
  · intro pool' hsome
    unfold GetDB at hsome
    rw [hp] at hsome
    dsimp only [popFirstKey] at hsome
    by_cases hcard : 0 < pool.ready.card
    · rw [if_pos hcard] at hsome
      dsimp only at hsome
      split at hsome
      · simp only [setPool_same] at hsome
        cases hsome
        rfl
      · split at hsome
        · simp only [setPool_same] at hsome
          cases hsome
          rfl
        · simp only [setPool_same] at hsome
          cases hsome
          rfl
    · rw [if_neg hcard] at hsome
      by_cases hcard2 : 0 < pool.dirty.card
      · rw [if_pos hcard2] at hsome
        dsimp only at hsome
        split at hsome
        · simp only [setPool_same] at hsome
          cases hsome
          rfl
        · split at hsome
          · simp only [setPool_same] at hsome
            cases hsome
            rfl
          · simp only [setPool_same] at hsome
            cases hsome
            rfl
      · rw [if_neg hcard2] at hsome
        dsimp only at hsome
        rw [hp] at hsome
        cases hsome
        rfl

/-- C2 witness: on `poolOne` (one ready slot) the ready branch applies. -/
theorem C2_witness :
    minPick ({0} : Finset ℕ) ∈ ({0} : Finset ℕ) ∧
    (GetDB minPick poolOne "h").2.pools "h" =
      some ⟨[tdb0], ({0} : Finset ℕ).erase (minPick {0}), ∅⟩ ∧
    ((GetDB minPick poolOne "h").1 =
       .ok (([tdb0] : List TestDatabase).getD (minPick {0}) defaultTestDB, false) ∨
     (GetDB minPick poolOne "h").1 = .error .ErrInvalidIndex) :=
  (C2_getdb_preference_order minPick poolOne "h" ⟨[tdb0], {0}, ∅⟩ minPick_valid
    (by decide)).1 (by decide)

/-- A hash pool whose slot slice is empty can never satisfy `GetDB`: the
bounds check `len(pool.dbs) <= index` fires on every popped id. -/
theorem GetDB_empty_dbs (pick : Finset ℕ → ℕ) (p : DBPool) (hash : String)
    (pool : dbHashPool) (hp : p.pools hash = some pool) (hdbs : pool.dbs = []) :
    (GetDB pick p hash).1 = .error .ErrNoDBReady ∨
    (GetDB pick p hash).1 = .error .ErrInvalidIndex := by
  unfold GetDB
  rw [hp]
  dsimp only [popFirstKey]
  by_cases hcard : 0 < pool.ready.card
  · rw [if_pos hcard]
    dsimp only
    split
    · right; rfl
    · rw [if_pos (by simp [hdbs])]
      right; rfl
  · rw [if_neg hcard]
    by_cases hcard2 : 0 < pool.dirty.card
    · rw [if_pos hcard2]
      dsimp only
      split
      · right; rfl
      · rw [if_pos (by simp [hdbs])]
        right; rfl
    · rw [if_neg hcard2]
      left; rfl

/-- C4 counterexample: after a successful `RemoveAllWithHash` on `poolOne`,
the hash pool entry for "h" is still registered (emptied, not deleted), and
a subsequent `GetDB` returns `ErrNoDBReady` — not `ErrUnknownHash` as the
claim requires. -/
theorem C4_counterexample :
    (RemoveAllWithHash poolOne "h" remOk).1 = .ok () ∧
    (RemoveAllWithHash poolOne "h" remOk).2.1.pools "h" = some ⟨[], ∅, ∅⟩ ∧
    (GetDB minPick (RemoveAllWithHash poolOne "h" remOk).2.1 "h").1 = .error .ErrNoDBReady ∧
    ¬((GetDB minPick (RemoveAllWithHash poolOne "h" remOk).2.1 "h").1 =
        .error .ErrUnknownHash) := by
  refine ⟨by decide, by decide, by decide, by decide⟩

/-- C4 amended: after `RemoveAllWithHash(hash)` completes successfully, the
hash pool entry remains registered with an empty slot slice (the source has
no `delete(p.pools, hash)` — only `RemoveAll` deletes entries), so a
subsequent `GetDB(hash)` never returns `ErrUnknownHash` and never hands out
a database; it fails with `ErrNoDBReady` (or `ErrInvalidIndex` if a stale
dirty id remains). -/
theorem C4_remove_with_hash_keeps_entry (p : DBPool) (hash : String)
    (removeFunc : TestDatabase → Except String Unit)
    (hok : (RemoveAllWithHash p hash removeFunc).1 = .ok ()) :
    ∃ pool', (RemoveAllWithHash p hash removeFunc).2.1.pools hash = some pool' ∧
      pool'.dbs = [] ∧
      ∀ pick,
        (GetDB pick (RemoveAllWithHash p hash removeFunc).2.1 hash).1 ≠
          .error .ErrUnknownHash ∧
        ∀ db isDirty,
          (GetDB pick (RemoveAllWithHash p hash removeFunc).2.1 hash).1 ≠
            .ok (db, isDirty) := by
  rcases hp : p.pools hash with _ | pool
  · unfold RemoveAllWithHash at hok
    rw [hp] at hok
    exact Except.noConfusion hok
  · have hok1 : (removeAllFromPool removeFunc pool).1 = .ok () := by
      unfold RemoveAllWithHash at hok
      rw [hp] at hok
      exact hok
    have hdbs : (removeAllFromPool removeFunc pool).2.1.dbs = [] :=
      (removeLoop_ok_spec removeFunc pool.dbs.length pool rfl hok1).2
    have hstate : (RemoveAllWithHash p hash removeFunc).2.1.pools hash =
        some (removeAllFromPool removeFunc pool).2.1 := by
      unfold RemoveAllWithHash
      rw [hp]
      dsimp only
      rw [setPool_same]
    refine ⟨(removeAllFromPool removeFunc pool).2.1, hstate, hdbs, ?_⟩
    intro pick
    rcases GetDB_empty_dbs pick _ hash _ hstate hdbs with h | h
    · refine ⟨?_, ?_⟩
      · intro hbad
        rw [h] at hbad
        simp at hbad
      · intro db isDirty hbad
        rw [h] at hbad
        exact Except.noConfusion hbad
    · refine ⟨?_, ?_⟩
      · intro hbad
        rw [h] at hbad
        simp at hbad
      · intro db isDirty hbad
        rw [h] at hbad
        exact Except.noConfusion hbad

/-- C4 witness: the amended behaviour on `poolOne`. -/
theorem C4_witness :
    ∃ pool', (RemoveAllWithHash poolOne "h" remOk).2.1.pools "h" = some pool' ∧
      pool'.dbs = [] ∧
      ∀ pick,
        (GetDB pick (RemoveAllWithHash poolOne "h" remOk).2.1 "h").1 ≠
          .error .ErrUnknownHash ∧
        ∀ db isDirty,
          (GetDB pick (RemoveAllWithHash poolOne "h" remOk).2.1 "h").1 ≠
            .ok (db, isDirty) :=
  C4_remove_with_hash_keeps_entry poolOne "h" remOk (by decide)

/-- C10: in every reachable pool state, every id in `ready` is a valid
index into the slot slice and below the capacity; consequently on the ready
path `GetDB`'s sanity checks cannot fire and it succeeds with
`isDirty = false`. -/
theorem C10_ready_ids_always_valid (m : ℕ) (p : DBPool) (hreach : PoolReach m p)
    (hash : String) (pool : dbHashPool) (hp : p.pools hash = some pool) :
    (∀ id ∈ pool.ready, id < pool.dbs.length ∧ id < p.maxPoolSize) ∧
    (∀ pick, PickValid pick → pool.ready.Nonempty →
       (GetDB pick p hash).1 = .ok (pool.dbs.getD (pick pool.ready) defaultTestDB, false)) := by
  have hinv := PoolReach_inv hreach hash pool hp
  refine ⟨hinv.1, ?_⟩
  intro pick hv hne
  have hmem := hv pool.ready hne
  have hid := hinv.1 _ hmem
  unfold GetDB
  rw [hp]
  dsimp only [popFirstKey]
  rw [if_pos (Finset.card_pos.mpr hne)]
  dsimp only
  rw [if_neg (by omega), if_neg (by omega)]

/-- C10 witness: on the reachable state `poolOne`, the ready path succeeds. -/
theorem C10_witness :
    (GetDB minPick poolOne "h").1 =
      .ok (([tdb0] : List TestDatabase).getD (minPick {0}) defaultTestDB, false) :=
  (C10_ready_ids_always_valid 2 poolOne
    (Relation.ReflTransGen.single (PoolStep.add (NewDBPool 2) tmplH "test_h_" initOk))
    "h" ⟨[tdb0], {0}, ∅⟩ (by decide)).2 minPick minPick_valid (by decide)

/-- C1 counterexample: the reachable state `sReadyDirty` (add one slot,
then return id 0, which was never handed out) has slot 0 in `ready` and in
`dirty` at once, so the index sets are not pairwise disjoint after a
sequence of `AddTestDatabase` and `ReturnTestDatabase` operations. -/
theorem C1_counterexample :
    PoolReach 2 sReadyDirty ∧
    sReadyDirty.pools "h" = some ⟨[tdb0], {0}, {0}⟩ ∧
    0 ∈ (⟨[tdb0], {0}, {0}⟩ : dbHashPool).ready ∧
    0 ∈ (⟨[tdb0], {0}, {0}⟩ : dbHashPool).dirty := by
  refine ⟨?_, by decide, by decide, by decide⟩
  exact Relation.ReflTransGen.tail
    (Relation.ReflTransGen.single (PoolStep.add (NewDBPool 2) tmplH "test_h_" initOk))
    (PoolStep.ret poolOne "h" 0)

/-- C1 amended: of the partition claim, what the two index sets the code
actually maintains satisfy is: every id in `ready` lies in
`{0, …, |slots|-1}` in every reachable state.  (`dirty` is unbounded by
`|slots|`, `ready` and `dirty` need not be disjoint, and ids handed out by
`GetDB` belong to no set, so the sets do not cover `{0, …, |slots|-1}`.) -/
theorem C1_ready_subset_of_slots (m : ℕ) (p : DBPool) (hreach : PoolReach m p)
    (hash : String) (pool : dbHashPool) (hp : p.pools hash = some pool) :
    ∀ id ∈ pool.ready, id < pool.dbs.length :=
  fun id hid => ((PoolReach_inv hreach hash pool hp).1 id hid).1

/-- C1 witness: the invariant instantiated on the reachable state `poolOne`. -/
theorem C1_witness : (0 : ℕ) < ([tdb0] : List TestDatabase).length :=
  C1_ready_subset_of_slots 2 poolOne
    (Relation.ReflTransGen.single (PoolStep.add (NewDBPool 2) tmplH "test_h_" initOk))
    "h" ⟨[tdb0], {0}, ∅⟩ (by decide) 0 (by decide)

/-- C6: `AddTestDatabase` allocates id = current `|slots|`, rejects with
`ErrPoolFull` once `|slots|` reaches `maxPoolSize` (and `|slots| ≤
maxPoolSize` holds in every reachable state), leaves the slot slice and
`ready` unchanged when `initFunc` fails, and on success appends the slot
and inserts its id into `ready`. -/
theorem C6_add_allocates_checks_and_appends :
    (∀ (p : DBPool) (template : Database) (dbNamePfx : String)
       (initFunc : TestDatabase → Except String Unit) (pool : dbHashPool),
       (p.pools template.TemplateHash).getD (newDBHashPool p.maxPoolSize) = pool →
       (∀ tdb, (AddTestDatabase p template dbNamePfx initFunc).1 = .ok tdb →
          tdb.ID = pool.dbs.length) ∧
       (p.maxPoolSize ≤ pool.dbs.length →
          (AddTestDatabase p template dbNamePfx initFunc).1 = .error .ErrPoolFull) ∧
       (∀ e, (AddTestDatabase p template dbNamePfx initFunc).1 = .error (.ErrExternal e) →
          (AddTestDatabase p template dbNamePfx initFunc).2.pools template.TemplateHash =
            some pool) ∧
       (∀ tdb, (AddTestDatabase p template dbNamePfx initFunc).1 = .ok tdb →
          (AddTestDatabase p template dbNamePfx initFunc).2.pools template.TemplateHash =
            some ({ pool with dbs := pool.dbs ++ [tdb],
                              ready := insert pool.dbs.length pool.ready }))) ∧
    (∀ m p, PoolReach m p → ∀ hash pool, p.pools hash = some pool →
       pool.dbs.length ≤ p.maxPoolSize) := by
  refine ⟨?_, ?_⟩
  · intro p template dbNamePfx initFunc pool hpool
    refine ⟨?_, ?_, ?_, ?_⟩
    · intro tdb hok
      unfold AddTestDatabase at hok
      dsimp only at hok
      rw [hpool] at hok
      split at hok
      · exact Except.noConfusion hok
      · split at hok
        · exact Except.noConfusion hok
        · cases hok
          rfl
    · intro hfull
      unfold AddTestDatabase
      dsimp only
      rw [hpool, if_pos hfull]
    · intro e herr
      unfold AddTestDatabase at herr ⊢
      dsimp only at herr ⊢
      rw [hpool] at herr ⊢
      split at herr
      · exact absurd (Except.error.inj herr) (by intro hc; cases hc)
      · split at herr
        · rw [if_neg (by assumption)]
          dsimp only
          rw [setPool_same]
        · exact Except.noConfusion herr
    · intro tdb hok
      unfold AddTestDatabase at hok ⊢
      dsimp only at hok ⊢
      rw [hpool] at hok ⊢
      split at hok
      · exact Except.noConfusion hok
      · split at hok
        · exact Except.noConfusion hok
        · cases hok
          rw [if_neg (by assumption)]
          dsimp only
          rw [setPool_same]
  · intro m p hreach hash pool hp
    exact (PoolReach_inv hreach hash pool hp).2

/-- C6 witness: all four behaviours plus the capacity bound on concrete
states. -/
theorem C6_witness :
    tdb0.ID = ([] : List TestDatabase).length ∧
    (AddTestDatabase (NewDBPool 0) tmplH "test_h_" initOk).1 = .error .ErrPoolFull ∧
    (AddTestDatabase (NewDBPool 1) tmplH "test_h_" initFail).2.pools tmplH.TemplateHash =
      some ⟨[], ∅, ∅⟩ ∧
    (AddTestDatabase (NewDBPool 2) tmplH "test_h_" initOk).2.pools tmplH.TemplateHash =
      some ⟨[] ++ [tdb0], insert 0 ∅, ∅⟩ ∧
    ([tdb0] : List TestDatabase).length ≤ poolOne.maxPoolSize :=
  ⟨(C6_add_allocates_checks_and_appends.1 (NewDBPool 2) tmplH "test_h_" initOk
      ⟨[], ∅, ∅⟩ rfl).1 tdb0 (by decide),
   (C6_add_allocates_checks_and_appends.1 (NewDBPool 0) tmplH "test_h_" initOk
      ⟨[], ∅, ∅⟩ rfl).2.1 (by decide),
   (C6_add_allocates_checks_and_appends.1 (NewDBPool 1) tmplH "test_h_" initFail
      ⟨[], ∅, ∅⟩ rfl).2.2.1 "boom" (by decide),
   (C6_add_allocates_checks_and_appends.1 (NewDBPool 2) tmplH "test_h_" initOk
      ⟨[], ∅, ∅⟩ rfl).2.2.2 tdb0 (by decide),
   C6_add_allocates_checks_and_appends.2 2 poolOne
     (Relation.ReflTransGen.single (PoolStep.add (NewDBPool 2) tmplH "test_h_" initOk))
     "h" ⟨[tdb0], {0}, ∅⟩ (by decide)⟩

/-!
## Slot-slice stability (for C8)
-/

theorem getElem?_take_of_lt (l : List TestDatabase) (k i : ℕ)
    (h : i < (l.take k).length) : (l.take k)[i]? = l[i]? := by
  rw [List.length_take, lt_min_iff] at h
  rw [List.getElem?_take, if_pos h.1]

/-- `GetDB` never modifies any slot slice. -/
theorem GetDB_dbs_stable (pick : Finset ℕ → ℕ) (p : DBPool) (hash0 h : String)
    (pool pool' : dbHashPool) (hp : p.pools h = some pool)
    (hp' : (GetDB pick p hash0).2.pools h = some pool') :
    pool'.dbs = pool.dbs := by
  rcases hp0 : p.pools hash0 with _ | pool0
  · unfold GetDB at hp'
    rw [hp0] at hp'
    dsimp only at hp'
    rw [hp] at hp'
    cases hp'
    rfl
  · unfold GetDB at hp'
    rw [hp0] at hp'
    dsimp only [popFirstKey] at hp'
    split at hp'
    · rw [hp] at hp'
      cases hp'
      rfl
    · rename_i index isDirty pool1 heq
      have hdbs1 : pool1.dbs = pool0.dbs := by
        split at heq
        · cases heq; rfl
        · split at heq
          · cases heq; rfl
          · exact Option.noConfusion heq
      by_cases hh : h = hash0
      · subst hh
        rw [hp] at hp0
        cases hp0
        split at hp'
        · dsimp only at hp'; rw [setPool_same] at hp'; cases hp'; exact hdbs1
        · split at hp'
          · dsimp only at hp'; rw [setPool_same] at hp'; cases hp'; exact hdbs1
          · dsimp only at hp'; rw [setPool_same] at hp'; cases hp'; exact hdbs1
      · split at hp'
        · dsimp only at hp'; rw [setPool_other _ _ _ _ hh, hp] at hp'; cases hp'; rfl
        · split at hp'
          · dsimp only at hp'; rw [setPool_other _ _ _ _ hh, hp] at hp'; cases hp'; rfl
          · dsimp only at hp'; rw [setPool_other _ _ _ _ hh, hp] at hp'; cases hp'; rfl

/-- `ReturnTestDatabase` never modifies any slot slice. -/
theorem Return_dbs_stable (p : DBPool) (hash0 h : String) (id : Int)
    (pool pool' : dbHashPool) (hp : p.pools h = some pool)
    (hp' : (ReturnTestDatabase p hash0 id).2.pools h = some pool') :
    pool'.dbs = pool.dbs := by
  unfold ReturnTestDatabase at hp'
  split at hp'
  · rw [hp] at hp'; cases hp'; rfl
  · split at hp'
    · rw [hp] at hp'; cases hp'; rfl
    · rename_i pool0 hp0
      dsimp only at hp'
      split at hp'
      · rw [hp] at hp'; cases hp'; rfl
      · dsimp only at hp'
        by_cases hh : h = hash0
        · subst hh
          rw [setPool_same] at hp'
          cases hp'
          rw [hp] at hp0
          cases hp0
          rfl
        · rw [setPool_other _ _ _ _ hh, hp] at hp'
          cases hp'
          rfl

/-- `AddTestDatabase` only ever appends a single slot to a slice. -/
theorem Add_dbs_stable (p : DBPool) (template : Database) (dbNamePfx : String)
    (initFunc : TestDatabase → Except String Unit) (h : String)
    (pool pool' : dbHashPool) (hp : p.pools h = some pool)
    (hp' : (AddTestDatabase p template dbNamePfx initFunc).2.pools h = some pool') :
    pool'.dbs = pool.dbs ∨ ∃ tdb, pool'.dbs = pool.dbs ++ [tdb] := by
  unfold AddTestDatabase at hp'
  dsimp only at hp'
  by_cases hh : h = template.TemplateHash
  · subst hh
    rw [hp] at hp'
    dsimp only [Option.getD] at hp'
    split at hp'
    · dsimp only at hp'
      rw [setPool_same] at hp'
      cases hp'
      left; rfl
    · split at hp'
      · dsimp only at hp'
        rw [setPool_same] at hp'
        cases hp'
        left; rfl
      · dsimp only at hp'
        rw [setPool_same] at hp'
        cases hp'
        right
        exact ⟨_, rfl⟩
  · split at hp'
    · dsimp only at hp'
      rw [setPool_other _ _ _ _ hh, hp] at hp'
      cases hp'
      left; rfl
    · split at hp'
      · dsimp only at hp'
        rw [setPool_other _ _ _ _ hh, hp] at hp'
        cases hp'
        left; rfl
      · dsimp only at hp'
        rw [setPool_other _ _ _ _ hh, hp] at hp'
        cases hp'
        left; rfl

/-- `RemoveAllWithHash` only ever truncates a slice. -/
theorem RemWith_dbs_stable (p : DBPool) (hash0 h : String)
    (removeFunc : TestDatabase → Except String Unit)
    (pool pool' : dbHashPool) (hp : p.pools h = some pool)
    (hp' : (RemoveAllWithHash p hash0 removeFunc).2.1.pools h = some pool') :
    ∃ k, pool'.dbs = pool.dbs.take k := by
  unfold RemoveAllWithHash at hp'
  split at hp'
  · rw [hp] at hp'
    cases hp'
    exact ⟨pool.dbs.length, (List.take_length _).symm⟩
  · rename_i pool0 hp0
    dsimp only at hp'
    by_cases hh : h = hash0
    · subst hh
      rw [setPool_same] at hp'
      cases hp'
      rw [hp] at hp0
      cases hp0
      exact removeLoop_dbs_take removeFunc pool.dbs.length pool
    · rw [setPool_other _ _ _ _ hh, hp] at hp'
      cases hp'
      exact ⟨pool.dbs.length, (List.take_length _).symm⟩

/-- `RemoveAll` only ever truncates slices (or deletes entries). -/
theorem RemoveAll_pools_spec (removeFunc : TestDatabase → Except String Unit) :
    ∀ (hashes : List String) (p : DBPool) (h : String) (pool' : dbHashPool),
    (RemoveAll removeFunc p hashes).2.1.pools h = some pool' →
    ∃ pool k, p.pools h = some pool ∧ pool'.dbs = pool.dbs.take k := by
  intro hashes
  induction hashes with
  | nil =>
    intro p h pool' hp'
    exact ⟨pool', pool'.dbs.length, hp', (List.take_length _).symm⟩
  | cons hash rest ih =>
    intro p h pool' hp'
    unfold RemoveAll at hp'
    split at hp'
    · exact ih p h pool' hp'
    · rename_i pool0 hp0
      dsimp only at hp'
      split at hp'
      · dsimp only at hp'
        by_cases hh : h = hash
        · subst hh
          rw [setPool_same] at hp'
          cases hp'
          obtain ⟨k, hk⟩ := removeLoop_dbs_take removeFunc pool0.dbs.length pool0
          exact ⟨pool0, k, hp0, hk⟩
        · rw [setPool_other _ _ _ _ hh] at hp'
          exact ⟨pool', pool'.dbs.length, hp', (List.take_length _).symm⟩
      · obtain ⟨pool, k, hpool, hk⟩ := ih _ h pool' hp'
        dsimp only at hpool
        by_cases hh : h = hash
        · subst hh
          rw [delPool_same] at hpool
          cases hpool
        · rw [delPool_other _ _ _ hh] at hpool
          exact ⟨pool, k, hpool, hk⟩

/-- C8: the database name of a slot created by `AddTestDatabase` with name
prefix `p` and id `i` is `p ++ pad3 i` (`fmt.Sprintf("%s%03d", prefix, id)`),
and no operation ever modifies a slot that stays in the slice: across any
single step, entries present at the same index before and after are
identical. -/
theorem C8_name_derivation_and_stability :
    (∀ (p : DBPool) (template : Database) (dbNamePfx : String)
       (initFunc : TestDatabase → Except String Unit) (tdb : TestDatabase),
       (AddTestDatabase p template dbNamePfx initFunc).1 = .ok tdb →
       tdb.Database.Config.Database = dbNamePfx ++ pad3 tdb.ID) ∧
    (∀ p p', PoolStep p p' → ∀ (hash : String) (pool pool' : dbHashPool),
       p.pools hash = some pool → p'.pools hash = some pool' →
       ∀ i, i < pool.dbs.length → i < pool'.dbs.length →
       pool'.dbs[i]? = pool.dbs[i]?) := by
  refine ⟨?_, ?_⟩
  · intro p template dbNamePfx initFunc tdb hok
    unfold AddTestDatabase at hok
    dsimp only at hok
    split at hok
    · exact Except.noConfusion hok
    · split at hok
      · exact Except.noConfusion hok
      · cases hok
        rfl
  · intro p p' hstep hash pool pool' hp hp' i hi hi'
    cases hstep with
    | get pick p hash0 =>
      rw [GetDB_dbs_stable pick p hash0 hash pool pool' hp hp']
    | ret p hash0 id =>
      rw [Return_dbs_stable p hash0 hash id pool pool' hp hp']
    | add p template dbNamePfx initFunc =>
      rcases Add_dbs_stable p template dbNamePfx initFunc hash pool pool' hp hp'
        with hcase | ⟨tdb, hcase⟩
      · rw [hcase]
      · rw [hcase, List.getElem?_append_left hi]
    | remWith p hash0 removeFunc =>
      obtain ⟨k, hk⟩ := RemWith_dbs_stable p hash0 hash removeFunc pool pool' hp hp'
      rw [hk] at hi' ⊢
      exact getElem?_take_of_lt _ _ _ hi'
    | remAll p hashes removeFunc =>
      obtain ⟨pool2, k, hpool2, hk⟩ := RemoveAll_pools_spec removeFunc hashes p hash pool' hp'
      rw [hp] at hpool2
      cases hpool2
      rw [hk] at hi' ⊢
      exact getElem?_take_of_lt _ _ _ hi'

/-- C8 witness: the created slot's name on a concrete add, and slice
stability across a concrete `ReturnTestDatabase` step. -/
theorem C8_witness :
    tdb0.Database.Config.Database = "test_h_" ++ pad3 tdb0.ID ∧
    (⟨[tdb0], {0}, {0}⟩ : dbHashPool).dbs[0]? = (⟨[tdb0], {0}, ∅⟩ : dbHashPool).dbs[0]? :=
  ⟨C8_name_derivation_and_stability.1 (NewDBPool 2) tmplH "test_h_" initOk tdb0 (by decide),
   C8_name_derivation_and_stability.2 poolOne sReadyDirty (PoolStep.ret poolOne "h" 0)
     "h" ⟨[tdb0], {0}, ∅⟩ ⟨[tdb0], {0}, {0}⟩ (by decide) (by decide) 0 (by decide) (by decide)⟩

theorem getElem?_eq_some_getD (l : List TestDatabase) (k : ℕ) (hk : k < l.length) :
    l[k]? = some (l.getD k defaultTestDB) := by
  rw [List.getD_eq_getElem?_getD, List.getElem?_eq_getElem hk]
  rfl

theorem RemoveAllWithHash_of_some (p : DBPool) (hash : String)
    (f : TestDatabase → Except String Unit) (pool : dbHashPool)
    (hp : p.pools hash = some pool) :
    RemoveAllWithHash p hash f = ((removeAllFromPool f pool).1,
      { p with pools := setPool p.pools hash (removeAllFromPool f pool).2.1 },
      (removeAllFromPool f pool).2.2) := by
  unfold RemoveAllWithHash
  rw [hp]

/-- C7: `RemoveAllWithHash` (and `RemoveAll`, which delegates per pool to
the same drain) passes each slot to `removeFunc` exactly once, from the
highest id down to 0 (its call trace is `dbs.reverse`); on failure at slot
`k` the already-processed suffix has been truncated (`dbs.take (k+1)`
remains), the error is returned, and a retry's first call is slot `k`, the
first unremoved one. -/
theorem C7_drain_descending_with_retry (p : DBPool) (hash : String)
    (removeFunc : TestDatabase → Except String Unit) (pool : dbHashPool)
    (hp : p.pools hash = some pool) :
    ((RemoveAllWithHash p hash removeFunc).1 = .ok () →
       (RemoveAllWithHash p hash removeFunc).2.2 = pool.dbs.reverse ∧
       ∃ pool', (RemoveAllWithHash p hash removeFunc).2.1.pools hash = some pool' ∧
         pool'.dbs = [] ∧
         ∀ j, j < pool.dbs.length → j ∉ pool'.ready ∧ j ∉ pool'.dirty) ∧
    (∀ e, (RemoveAllWithHash p hash removeFunc).1 = .error e →
       ∃ k msg, k < pool.dbs.length ∧ e = .ErrExternal msg ∧
         removeFunc (pool.dbs.getD k defaultTestDB) = .error msg ∧
         (RemoveAllWithHash p hash removeFunc).2.2 = (pool.dbs.drop k).reverse ∧
         ∃ pool', (RemoveAllWithHash p hash removeFunc).2.1.pools hash = some pool' ∧
           pool'.dbs = pool.dbs.take (k + 1) ∧
           (∀ j, k + 1 ≤ j → j < pool.dbs.length → j ∉ pool'.ready ∧ j ∉ pool'.dirty) ∧
           ∀ f2, (RemoveAllWithHash (RemoveAllWithHash p hash removeFunc).2.1 hash
             f2).2.2.head? = some (pool.dbs.getD k defaultTestDB)) ∧
    (RemoveAll removeFunc p [hash]).2.2 = (RemoveAllWithHash p hash removeFunc).2.2 := by
  have h1 : (RemoveAllWithHash p hash removeFunc).1 = (removeAllFromPool removeFunc pool).1 := by
    rw [RemoveAllWithHash_of_some p hash removeFunc pool hp]
  have h22 : (RemoveAllWithHash p hash removeFunc).2.2 =
      (removeAllFromPool removeFunc pool).2.2 := by
    rw [RemoveAllWithHash_of_some p hash removeFunc pool hp]
  have h21 : (RemoveAllWithHash p hash removeFunc).2.1.pools hash =
      some (removeAllFromPool removeFunc pool).2.1 := by
    rw [RemoveAllWithHash_of_some p hash removeFunc pool hp]
    dsimp only
    rw [setPool_same]
  refine ⟨?_, ?_, ?_⟩
  · intro hok
    rw [h1] at hok
    have spec := removeLoop_ok_spec removeFunc pool.dbs.length pool rfl hok
    exact ⟨by rw [h22]; exact spec.1, _, h21, spec.2,
      removeLoop_ok_sets removeFunc pool.dbs.length pool rfl hok⟩
  · intro e herr
    rw [h1] at herr
    obtain ⟨k, msg, hk, hemsg, hfk, hdbs, htr⟩ :=
      removeLoop_err_spec removeFunc pool.dbs.length pool rfl e herr
    have hlenr : (removeLoop removeFunc pool.dbs.length pool).2.1.dbs.length = k + 1 := by
      rw [hdbs, List.length_take]
      omega
    refine ⟨k, msg, hk, hemsg, hfk, by rw [h22]; exact htr, _, h21, hdbs, ?_, ?_⟩
    · intro j hjk hjlen
      exact removeLoop_err_sets removeFunc pool.dbs.length pool rfl e herr j
        (by rw [hlenr]; exact hjk) hjlen
    intro f2
    have hlen' : (removeLoop removeFunc pool.dbs.length pool).2.1.dbs.length = k + 1 := hlenr
    have hhead : (RemoveAllWithHash (RemoveAllWithHash p hash removeFunc).2.1 hash f2).2.2 =
        (removeAllFromPool f2 (removeAllFromPool removeFunc pool).2.1).2.2 := by
      rw [RemoveAllWithHash_of_some _ hash f2 _ h21]
    rw [hhead]
    unfold removeAllFromPool
    rw [hlen']
    rw [removeLoop_trace_head f2 k _ hlen']
    rw [List.getLast?_eq_getElem?, hlen']
    calc (removeLoop removeFunc pool.dbs.length pool).2.1.dbs[k + 1 - 1]?
        = (pool.dbs.take (k + 1))[k]? := by rw [hdbs, Nat.add_sub_cancel]
      _ = pool.dbs[k]? := getElem?_take_of_lt _ _ _ (by
            rw [List.length_take]
            omega)
      _ = some (pool.dbs.getD k defaultTestDB) := getElem?_eq_some_getD _ _ hk
  · unfold RemoveAll
    rw [hp]
    dsimp only
    split
    · rw [h22]
    · rw [h22]
      show (removeAllFromPool removeFunc pool).2.2 ++
        (RemoveAll removeFunc _ []).2.2 = _
      unfold RemoveAll
      rw [List.append_nil]

/-- C7 witness: draining `poolOne` calls `removeFunc` once, on its single
slot, and empties the slice. -/
theorem C7_witness :
    (RemoveAllWithHash poolOne "h" remOk).2.2 = [tdb0] ∧
    ∃ pool', (RemoveAllWithHash poolOne "h" remOk).2.1.pools "h" = some pool' ∧
      pool'.dbs = [] ∧
      ∀ j, j < (⟨[tdb0], {0}, ∅⟩ : dbHashPool).dbs.length →
        j ∉ pool'.ready ∧ j ∉ pool'.dirty := by
  have h := (C7_drain_descending_with_retry poolOne "h" remOk ⟨[tdb0], {0}, ∅⟩
    (by decide)).1 (by decide)
  exact ⟨h.1, h.2⟩
